import Mathlib

/-!
Shallow embedding of the particle boundary-buffer subsystem of WarpX
(`Source/Particles/ParticleBoundaryBuffer.cpp`), specialized to the
`WARPX_DIM_3D` build with embedded boundaries enabled (`AMREX_USE_EB`).

Real-valued particle data is modelled with `ℚ`; machine integers with
`Int`/`Nat`.  A particle container is a list of tiles (the per-level,
per-grid tile structure flattened into iteration order, one refinement
level); buffer containers additionally track their runtime component
counts.  External collaborators (AMReX / ablastr routines and WarpX
pusher code that is not part of this file) are modelled from the spec,
as marked by their doc comments.
-/

namespace WarpXPBB

/-- Spatial dimensionality of the embedded build (`WARPX_DIM_3D`). -/
def SPACEDIM : Nat := 3

/-- Fixed real (SoA) component indices, `PIdx` for the 3D build:
weight and the three momentum components. -/
def PIdx.w : Nat := 0

/-- Momentum component `ux`. -/
def PIdx.ux : Nat := 1

/-- Momentum component `uy`. -/
def PIdx.uy : Nat := 2

/-- Momentum component `uz`. -/
def PIdx.uz : Nat := 3

/-- Number of fixed real components (`PIdx::nattribs`). -/
def PIdx.nattribs : Nat := 4

/-- One particle: signed id (the sign is the invalidation sentinel),
position components, the fixed real attributes, and the runtime real and
integer attributes. -/
structure Particle where
  idcpu : Int
  pos : List ℚ
  rdata : List ℚ
  runtime_rdata : List ℚ
  runtime_idata : List Int
deriving DecidableEq, Repr

/-- A live (source) particle container for one species: declared runtime
component counts and the particle tiles. -/
structure ParticleContainer where
  num_runtime_real : Nat
  num_runtime_int : Nat
  tiles : List (List Particle)
deriving DecidableEq, Repr

/-- Default particle container used for out-of-range species lookups. -/
def defaultPC : ParticleContainer := { num_runtime_real := 0, num_runtime_int := 0, tiles := [] }

/-- A pinned-memory buffer container (`PinnedMemoryParticleContainer`). -/
structure PinnedContainer where
  num_runtime_real : Nat
  num_runtime_int : Nat
  tiles : List (List Particle)
deriving DecidableEq, Repr

/-- `pc.make_alike<PinnedArenaAllocator>()`: an empty container with the
same runtime components as the source. -/
def make_alike (pc : ParticleContainer) : PinnedContainer :=
  { num_runtime_real := pc.num_runtime_real, num_runtime_int := pc.num_runtime_int, tiles := [] }

/-- `AddIntComp("timestamp", false)`: appends one runtime integer
component; existing particles (there are none at buffer creation) get a
default value for the new component. -/
def AddIntComp (b : PinnedContainer) : PinnedContainer :=
  { b with
    num_runtime_int := b.num_runtime_int + 1,
    tiles := b.tiles.map (List.map (fun p => { p with runtime_idata := p.runtime_idata ++ [0] })) }

/-- Total number of particles currently in a buffer container
(`TotalNumberOfParticles(false, local)`, rank-local model). -/
def containerNumParticles (b : PinnedContainer) : Nat :=
  (b.tiles.map List.length).sum

/-- Geometry adapter: domain bounds and periodicity flags per dimension. -/
structure Geometry where
  prob_lo : List ℚ
  prob_hi : List ℚ
  is_periodic : List Bool
deriving DecidableEq, Repr

/-- Number of boundaries: two faces per dimension plus the embedded
boundary (`AMREX_USE_EB` enabled). -/
def numBoundaries : Nat := 2 * SPACEDIM + 1

/-- The boundary-buffer manager state: species names, the per-boundary,
per-species buffer slots (`none` = not yet defined), and the per-pair
activation flags. -/
structure ParticleBoundaryBuffer where
  species_names : List String
  particle_containers : List (List (Option PinnedContainer))
  do_boundary_buffer : List (List Bool)
deriving DecidableEq, Repr

/-- Buffer slot for boundary `ib` and species `i`. -/
def slotOf (pbb : ParticleBoundaryBuffer) (ib i : Nat) : Option PinnedContainer :=
  (pbb.particle_containers.getD ib []).getD i none

/-- `struct IsOutsideDomainBoundary`: true when the particle coordinate
along `m_idim` is strictly below the low bound (side 0) or at-or-above
the high bound (side 1). -/
def IsOutsideDomainBoundary (m_plo m_phi : List ℚ) (m_idim m_iside : Nat)
    (p : Particle) : Bool :=
  if m_iside == 0 then
    decide (p.pos.getD m_idim 0 < m_plo.getD m_idim 0)
  else
    decide (m_phi.getD m_idim 0 ≤ p.pos.getD m_idim 0)

/-- `struct CopyAndTimestamp`: copy id, fixed reals, runtime reals and
runtime ints from the source particle; destination slots beyond the
source's component count keep their default; then write the step index
into runtime integer slot `m_index`.  `dstNRR`/`dstNRI` are the
destination container's runtime component counts. -/
def CopyAndTimestamp (m_index : Nat) (m_step : Int) (dstNRR dstNRI : Nat)
    (src : Particle) : Particle :=
  { idcpu := src.idcpu
    pos := src.pos
    rdata := src.rdata
    runtime_rdata := (List.range dstNRR).map (fun j => src.runtime_rdata.getD j 0)
    runtime_idata :=
      (((List.range dstNRI).map (fun j => src.runtime_idata.getD j 0)).set m_index m_step) }

/-- Modelled from the spec: `UpdatePosition`
(`Particles/Pusher/UpdatePosition.H`, repository code not under src/)
advances the particle position along its velocity for time `dt`
(backward for negative `dt`); the external pusher's relativistic
momentum-to-velocity conversion is folded into the velocity components. -/
def UpdatePosition (x y z ux uy uz dt : ℚ) : ℚ × ℚ × ℚ :=
  (x + ux * dt, y + uy * dt, z + uz * dt)

/-- Bisection tolerance of the external root finder (its default). -/
def bisectTol : ℚ := 1 / 10 ^ 12

/-- Iteration budget of the external root finder (its default). -/
def bisectMaxIter : Nat := 100

/-- Modelled from the spec: `amrex::bisect` (external numeric library) is
a standard bisection root finder — iterative interval halving keeping a
sign-change bracket until the bracket is narrower than the tolerance or
the iteration budget is exhausted; it returns the midpoint of the final
bracket. -/
def bisectAux (f : ℚ → ℚ) (tol : ℚ) : Nat → ℚ → ℚ → ℚ
  | 0, lo, hi => (lo + hi) / 2
  | n + 1, lo, hi =>
    if hi - lo < tol then (lo + hi) / 2
    else
      let mid := (lo + hi) / 2
      if f lo * f mid ≤ 0 then bisectAux f tol n lo mid
      else bisectAux f tol n mid hi

/-- `amrex::bisect(lo, hi, f)` with the default tolerance and budget. -/
def bisect (lo hi : ℚ) (f : ℚ → ℚ) : ℚ :=
  bisectAux f bisectTol bisectMaxIter lo hi

/-- The scalar function handed to the bisection: the signed-distance
field (nodal interpolation modelled from the spec as an opaque scalar
field `phiAt`) evaluated at the position obtained by stepping the
particle backward by `frac * dt` from its end-of-step position. -/
def ebTrajectoryPhi (phiAt : ℚ → ℚ → ℚ → ℚ) (dt : ℚ) (p : Particle) : ℚ → ℚ :=
  fun frac =>
    let q := UpdatePosition (p.pos.getD 0 0) (p.pos.getD 1 0) (p.pos.getD 2 0)
      (p.rdata.getD PIdx.ux 0) (p.rdata.getD PIdx.uy 0) (p.rdata.getD PIdx.uz 0)
      (-(frac * dt))
    phiAt q.1 q.2.1 q.2.2

/-- The refined boundary-intersection position: the backward-stepped
position at the bisection root over the step fraction in [0, 1]
(3D: all three coordinates are written). -/
def ebIntersectionPos (phiAt : ℚ → ℚ → ℚ → ℚ) (dt : ℚ) (p : Particle) : List ℚ :=
  let dt_fraction := bisect 0 1 (ebTrajectoryPhi phiAt dt p)
  let q := UpdatePosition (p.pos.getD 0 0) (p.pos.getD 1 0) (p.pos.getD 2 0)
    (p.rdata.getD PIdx.ux 0) (p.rdata.getD PIdx.uy 0) (p.rdata.getD PIdx.uz 0)
    (-(dt_fraction * dt))
  [q.1, q.2.1, q.2.2]

/-- `struct FindBoundaryIntersection`: copy all particle attributes from
the source (the destination's position and momentum are therefore the
source's), record the step index in runtime integer slot `m_index`, then
overwrite the position with the point of intersection with the embedded
boundary found by bisection. -/
def FindBoundaryIntersection (m_index : Nat) (m_step : Int) (m_dt : ℚ)
    (phiAt : ℚ → ℚ → ℚ → ℚ) (dstNRR dstNRI : Nat) (src : Particle) : Particle :=
  let copied : Particle :=
    { idcpu := src.idcpu
      pos := src.pos
      rdata := src.rdata
      runtime_rdata := (List.range dstNRR).map (fun j => src.runtime_rdata.getD j 0)
      runtime_idata :=
        (((List.range dstNRI).map (fun j => src.runtime_idata.getD j 0)).set m_index m_step) }
  { copied with pos := ebIntersectionPos phiAt m_dt src }

/-- A default-initialized particle, used for newly resized buffer slots. -/
def defaultParticle : Particle :=
  { idcpu := 0, pos := [], rdata := [], runtime_rdata := [], runtime_idata := [] }

/-- Modelled from the spec: resizing a particle tile keeps the first `n`
existing particles and default-initializes any newly added slots. -/
def tileResize (t : List Particle) (n : Nat) : List Particle :=
  if n ≤ t.length then t.take n else t ++ List.replicate (n - t.length) defaultParticle

/-- Modelled from the spec: `amrex::filterAndTransformParticles` is a
stream compaction — it writes `f p` for each source particle matching
`pred`, in source order, into the destination starting at `dst_index`. -/
def filterAndTransformParticles (dst src : List Particle) (pred : Particle → Bool)
    (f : Particle → Particle) (dst_index : Nat) : List Particle :=
  dst.take dst_index ++ (src.filter pred).map f
    ++ dst.drop (dst_index + ((src.filter pred).map f).length)

/-- One tile pass of the gather: count the matches with a parallel
reduction, resize the destination tile to exactly accommodate them, then
stream-compact the matching particles through the transform `f`.
An empty source tile is skipped. -/
def gatherTile (pred : Particle → Bool) (f : Particle → Particle)
    (buf_tile tile : List Particle) : List Particle :=
  if tile.length = 0 then buf_tile
  else
    filterAndTransformParticles
      (tileResize buf_tile (buf_tile.length + (tile.filter pred).length))
      tile pred f buf_tile.length

/-- The lazily defined buffer: the existing container if the slot is
defined, otherwise `make_alike` of the source followed by
`AddIntComp("timestamp")`. -/
def defineIfUndefined (pc : ParticleContainer) (slot : Option PinnedContainer) :
    PinnedContainer :=
  match slot with
  | some b => b
  | none => AddIntComp (make_alike pc)

/-- Gather for one domain-face boundary slot `(idim, iside)` of one
species: define the buffer if needed, then run the tile passes with the
domain-face predicate and `CopyAndTimestamp` (timestamp index
`NumRuntimeIntComps() - 1`). -/
def gatherFaceSlot (plo phi : List ℚ) (idim iside : Nat) (timestep : Int)
    (pc : ParticleContainer) (slot : Option PinnedContainer) : PinnedContainer :=
  let b := defineIfUndefined pc slot
  { b with
    tiles := (List.range (max pc.tiles.length b.tiles.length)).map (fun k =>
      gatherTile (IsOutsideDomainBoundary plo phi idim iside)
        (CopyAndTimestamp (b.num_runtime_int - 1) timestep b.num_runtime_real b.num_runtime_int)
        (b.tiles.getD k []) (pc.tiles.getD k [])) }

/-- The embedded-boundary match predicate: the signed-distance field
interpolated at the particle's position is negative. -/
def ebMatch (phiAt : ℚ → ℚ → ℚ → ℚ) (p : Particle) : Bool :=
  decide (phiAt (p.pos.getD 0 0) (p.pos.getD 1 0) (p.pos.getD 2 0) < 0)

/-- Gather for the embedded-boundary slot of one species: define the
buffer if needed, then run the tile passes with the distance-field
predicate and `FindBoundaryIntersection`. -/
def gatherEBSlot (phiAt : ℚ → ℚ → ℚ → ℚ) (dt : ℚ) (timestep : Int)
    (pc : ParticleContainer) (slot : Option PinnedContainer) : PinnedContainer :=
  let b := defineIfUndefined pc slot
  { b with
    tiles := (List.range (max pc.tiles.length b.tiles.length)).map (fun k =>
      gatherTile (ebMatch phiAt)
        (FindBoundaryIntersection (b.num_runtime_int - 1) timestep dt phiAt
          b.num_runtime_real b.num_runtime_int)
        (b.tiles.getD k []) (pc.tiles.getD k [])) }

/-- Dispatch for one boundary slot: the face boundaries `ib < 2 * SPACEDIM`
(dimension `ib / 2`, side `ib % 2`) are skipped entirely when the
dimension is periodic; the last boundary is the embedded boundary. -/
def gatherSlot (geom : Geometry) (phiAt : ℚ → ℚ → ℚ → ℚ) (dt : ℚ) (timestep : Int)
    (ib : Nat) (pc : ParticleContainer) (slot : Option PinnedContainer) :
    Option PinnedContainer :=
  if ib < 2 * SPACEDIM then
    if geom.is_periodic.getD (ib / 2) false then slot
    else some (gatherFaceSlot geom.prob_lo geom.prob_hi (ib / 2) (ib % 2) timestep pc slot)
  else some (gatherEBSlot phiAt dt timestep pc slot)

/-- `ParticleBoundaryBuffer::gatherParticles`: for every boundary and
every species with buffering active, gather the matching live particles
into the buffer slot.  The live containers (`mypc`) are only read; they
are returned unchanged as the first component. -/
def gatherParticles (geom : Geometry) (phiAt : ℚ → ℚ → ℚ → ℚ) (dt : ℚ) (timestep : Int)
    (mypc : List ParticleContainer) (pbb : ParticleBoundaryBuffer) :
    List ParticleContainer × ParticleBoundaryBuffer :=
  (mypc,
   { pbb with
     particle_containers :=
       (List.range numBoundaries).map (fun ib =>
         (List.range pbb.species_names.length).map (fun i =>
           if (pbb.do_boundary_buffer.getD ib []).getD i false then
             gatherSlot geom phiAt dt timestep ib (mypc.getD i defaultPC) (slotOf pbb ib i)
           else slotOf pbb ib i)) })

/-- Modelled from the spec: AMReX `Redistribute(lev_min, lev_max, nGrow,
local, remove_negative)` (external particle-container collaborator)
reorganizes a container's particles across the parallel decomposition;
rank-locally it preserves the particle content, except that when
`remove_negative` is true the particles with negative id are dropped. -/
def Redistribute (remove_negative : Bool) (b : PinnedContainer) : PinnedContainer :=
  if remove_negative then
    { b with tiles := b.tiles.map (List.filter (fun p => decide (0 ≤ p.idcpu))) }
  else b

/-- `ParticleBoundaryBuffer::redistribute`: redistribute every defined
buffer, passing `remove_negative = false` ("do not remove particles with
negative ids"); undefined slots are untouched. -/
def redistribute (pbb : ParticleBoundaryBuffer) : ParticleBoundaryBuffer :=
  { pbb with
    particle_containers := pbb.particle_containers.map (List.map (fun slot =>
      match slot with
      | some b => some (Redistribute false b)
      | none => none)) }

/-- Clearing one buffer slot: a defined container loses all its
particles but stays defined; an undefined slot is untouched. -/
def clearSlot (slot : Option PinnedContainer) : Option PinnedContainer :=
  match slot with
  | some b => some { b with tiles := [] }
  | none => none

/-- `ParticleBoundaryBuffer::clearParticles(int i)`: clear the buffers of
every species at boundary `i`. -/
def clearParticlesAt (pbb : ParticleBoundaryBuffer) (i : Nat) : ParticleBoundaryBuffer :=
  { pbb with
    particle_containers :=
      pbb.particle_containers.set i ((pbb.particle_containers.getD i []).map clearSlot) }

/-- `ParticleBoundaryBuffer::clearParticles()`: clear every boundary. -/
def clearParticlesAll (pbb : ParticleBoundaryBuffer) : ParticleBoundaryBuffer :=
  (List.range numBoundaries).foldl clearParticlesAt pbb

/-- `getSpeciesID` of the external particle-container registry: the index
of the species name in the species list. -/
def getSpeciesID (pbb : ParticleBoundaryBuffer) (species_name : String) : Nat :=
  pbb.species_names.indexOf species_name

/-- `ParticleBoundaryBuffer::getNumParticlesInContainer`: the buffered
count for the species at the boundary, 0 when the slot is undefined. -/
def getNumParticlesInContainer (pbb : ParticleBoundaryBuffer)
    (species_name : String) (boundary : Nat) : Nat :=
  match slotOf pbb boundary (getSpeciesID pbb species_name) with
  | some b => containerNumParticles b
  | none => 0

/-- `ParticleBoundaryBuffer::getParticleBuffer`: fatal assertion
(modelled as `Except.error`) when the pair is not configured active, then
when the slot is undefined; otherwise the buffer container. -/
def getParticleBuffer (pbb : ParticleBoundaryBuffer) (species_name : String)
    (boundary : Nat) : Except String PinnedContainer :=
  let index := getSpeciesID pbb species_name
  if (pbb.do_boundary_buffer.getD boundary []).getD index false then
    match slotOf pbb boundary index with
    | some b => Except.ok b
    | none => Except.error "Tried to get a buffer that is not defined!"
  else
    Except.error ("Attempted to get particle buffer for boundary "
      ++ toString boundary ++ ", which is not used!")

/-- `ParticleBoundaryBuffer::getParticleBufferPointer`: returns the
address of the slot with no assertion of any kind. -/
def getParticleBufferPointer (pbb : ParticleBoundaryBuffer) (species_name : String)
    (boundary : Nat) : Except String (Option PinnedContainer) :=
  Except.ok (slotOf pbb boundary (getSpeciesID pbb species_name))

/-! ### Basic list helpers -/

/-- `getD` of a mapped range, inside the range. -/
theorem getD_range_map {α : Type} (f : Nat → α) (d : α) (n i : Nat) (h : i < n) :
    ((List.range n).map f).getD i d = f i := by
  have hlen : i < ((List.range n).map f).length := by simpa using h
  simp [List.getD_eq_getElem?_getD, List.getElem?_eq_getElem hlen]

/-- `getD` past the end of the list is the default. -/
theorem getD_default {α : Type} (l : List α) (d : α) (i : Nat) (h : l.length ≤ i) :
    l.getD i d = d := by
  simp [List.getD_eq_getElem?_getD, List.getElem?_eq_none h]

/-- Reading a list back out of its `getD` table. -/
theorem range_map_getD {α : Type} (l : List α) (d : α) :
    (List.range l.length).map (fun j => l.getD j d) = l := by
  apply List.ext_getElem
  · simp
  · intro i h1 h2
    simp [List.getD_eq_getElem?_getD, List.getElem?_eq_getElem h2]

/-- Reading a list out of a one-longer `getD` table and then setting the
final slot appends that value. -/
theorem range_map_getD_set {α : Type} (l : List α) (d x : α) :
    ((List.range (l.length + 1)).map (fun j => l.getD j d)).set l.length x = l ++ [x] := by
  apply List.ext_getElem
  · simp
  · intro i h1 h2
    rw [List.getElem_set]
    by_cases hi : l.length = i
    · rw [if_pos hi, List.getElem_concat_length _ _ _ hi.symm]
    · have hlt : i < l.length + 1 := by simpa using h2
      have hil : i < l.length := by omega
      rw [if_neg hi]
      rw [List.getElem_map, List.getElem_range]
      rw [List.getElem_append_left hil]
      simp [List.getD_eq_getElem?_getD, List.getElem?_eq_getElem hil]

/-- Counting through a map that is injective at `p` on the list. -/
theorem count_map_inj_at {α β : Type} [DecidableEq α] [DecidableEq β]
    (f : α → β) (p : α) (l : List α) (h : ∀ q ∈ l, (f q = f p ↔ q = p)) :
    (l.map f).count (f p) = l.count p := by
  induction l with
  | nil => simp
  | cons a t ih =>
    simp only [List.map_cons, List.count_cons]
    rw [ih (fun q hq => h q (List.mem_cons_of_mem _ hq))]
    have hiff := h a (List.mem_cons_self a t)
    simp only [beq_iff_eq]
    rw [if_congr hiff rfl rfl]

/-! ### Characterizations of the transform functors -/

/-- On a particle whose runtime attributes have the source container's
declared lengths, and with the destination holding one extra runtime
integer component with the timestamp index at the last slot,
`CopyAndTimestamp` copies everything and appends the timestamp. -/
theorem CopyAndTimestamp_eq (ts : Int) (nrr nri : Nat) (p : Particle)
    (h1 : p.runtime_rdata.length = nrr) (h2 : p.runtime_idata.length = nri) :
    CopyAndTimestamp nri ts nrr (nri + 1) p =
      { p with runtime_idata := p.runtime_idata ++ [ts] } := by
  subst h1 h2
  unfold CopyAndTimestamp
  rw [range_map_getD, range_map_getD_set]

/-- Same statement for `FindBoundaryIntersection`, which additionally
overwrites the position with the refined intersection position. -/
theorem FindBoundaryIntersection_eq (ts : Int) (dt : ℚ) (phiAt : ℚ → ℚ → ℚ → ℚ)
    (nrr nri : Nat) (p : Particle)
    (h1 : p.runtime_rdata.length = nrr) (h2 : p.runtime_idata.length = nri) :
    FindBoundaryIntersection nri ts dt phiAt nrr (nri + 1) p =
      { p with runtime_idata := p.runtime_idata ++ [ts],
               pos := ebIntersectionPos phiAt dt p } := by
  subst h1 h2
  unfold FindBoundaryIntersection
  rw [range_map_getD, range_map_getD_set]

/-! ### The tile pass is an append of the compacted matches -/

/-- Resizing a tile to its length plus `c` appends `c` default slots. -/
theorem tileResize_eq_append (t : List Particle) (c : Nat) :
    tileResize t (t.length + c) = t ++ List.replicate c defaultParticle := by
  unfold tileResize
  by_cases hc : c = 0
  · subst hc; simp
  · rw [if_neg (by omega)]
    congr 1
    congr 1
    omega

/-- Net effect of count → resize → stream-compact on one tile: the
matching particles, transformed, are appended to the buffer tile. -/
theorem gatherTile_eq (pred : Particle → Bool) (f : Particle → Particle)
    (buf tile : List Particle) :
    gatherTile pred f buf tile = buf ++ (tile.filter pred).map f := by
  unfold gatherTile
  by_cases h0 : tile.length = 0
  · rw [if_pos h0]
    have htile : tile = [] := List.length_eq_zero.mp h0
    subst htile; simp
  · rw [if_neg h0]
    unfold filterAndTransformParticles
    rw [tileResize_eq_append]
    simp only [List.length_map]
    rw [List.take_left' rfl]
    have hdr : (buf ++ List.replicate (tile.filter pred).length defaultParticle).drop
        (buf.length + (tile.filter pred).length) = [] :=
      List.drop_of_length_le (by simp)
    rw [hdr, List.append_nil]

/-- The freshly defined buffer for an undefined slot: empty, same runtime
real count as the source, one extra runtime integer component. -/
theorem defineIfUndefined_none (pc : ParticleContainer) :
    defineIfUndefined pc none =
      { num_runtime_real := pc.num_runtime_real,
        num_runtime_int := pc.num_runtime_int + 1,
        tiles := [] } := rfl

/-! ### Per-slot gather formulas -/

/-- The buffer tile of a face-gathered slot: the old tile followed by the
copied matches of the corresponding source tile. -/
theorem gatherFaceSlot_tiles (plo phi : List ℚ) (d iside : Nat) (ts : Int)
    (pc : ParticleContainer) (slot : Option PinnedContainer) (k : Nat) :
    (gatherFaceSlot plo phi d iside ts pc slot).tiles.getD k [] =
      (defineIfUndefined pc slot).tiles.getD k [] ++
        ((pc.tiles.getD k []).filter (IsOutsideDomainBoundary plo phi d iside)).map
          (CopyAndTimestamp ((defineIfUndefined pc slot).num_runtime_int - 1) ts
            (defineIfUndefined pc slot).num_runtime_real
            (defineIfUndefined pc slot).num_runtime_int) := by
  unfold gatherFaceSlot
  by_cases hk : k < max pc.tiles.length (defineIfUndefined pc slot).tiles.length
  · rw [getD_range_map _ _ _ _ hk, gatherTile_eq]
  · push_neg at hk
    have h1 : pc.tiles.length ≤ k := le_trans (le_max_left _ _) hk
    have h2 : (defineIfUndefined pc slot).tiles.length ≤ k :=
      le_trans (le_max_right _ _) hk
    rw [getD_default _ _ _ (by simpa using hk), getD_default _ _ _ h2,
      getD_default _ _ _ h1]
    simp

/-- The buffer tile of an EB-gathered slot: the old tile followed by the
intersection-transformed matches of the corresponding source tile. -/
theorem gatherEBSlot_tiles (phiAt : ℚ → ℚ → ℚ → ℚ) (dt : ℚ) (ts : Int)
    (pc : ParticleContainer) (slot : Option PinnedContainer) (k : Nat) :
    (gatherEBSlot phiAt dt ts pc slot).tiles.getD k [] =
      (defineIfUndefined pc slot).tiles.getD k [] ++
        ((pc.tiles.getD k []).filter (ebMatch phiAt)).map
          (FindBoundaryIntersection ((defineIfUndefined pc slot).num_runtime_int - 1) ts dt
            phiAt (defineIfUndefined pc slot).num_runtime_real
            (defineIfUndefined pc slot).num_runtime_int) := by
  unfold gatherEBSlot
  by_cases hk : k < max pc.tiles.length (defineIfUndefined pc slot).tiles.length
  · rw [getD_range_map _ _ _ _ hk, gatherTile_eq]
  · push_neg at hk
    have h1 : pc.tiles.length ≤ k := le_trans (le_max_left _ _) hk
    have h2 : (defineIfUndefined pc slot).tiles.length ≤ k :=
      le_trans (le_max_right _ _) hk
    rw [getD_default _ _ _ (by simpa using hk), getD_default _ _ _ h2,
      getD_default _ _ _ h1]
    simp

/-- The slot written by one `gatherParticles` call: the gathered slot for
active pairs, the untouched slot otherwise. -/
theorem gatherParticles_slot (geom : Geometry) (phiAt : ℚ → ℚ → ℚ → ℚ) (dt : ℚ)
    (ts : Int) (mypc : List ParticleContainer) (pbb : ParticleBoundaryBuffer)
    (ib i : Nat) (hib : ib < numBoundaries) (hi : i < pbb.species_names.length) :
    slotOf (gatherParticles geom phiAt dt ts mypc pbb).2 ib i =
      if (pbb.do_boundary_buffer.getD ib []).getD i false then
        gatherSlot geom phiAt dt ts ib (mypc.getD i defaultPC) (slotOf pbb ib i)
      else slotOf pbb ib i := by
  conv_lhs => unfold gatherParticles slotOf
  dsimp only
  rw [getD_range_map _ _ _ _ hib, getD_range_map _ _ _ _ hi]
  rfl

/-- `getD` at the length of the left part of an append with a singleton. -/
theorem getD_append_length {α : Type} (l : List α) (x d : α) :
    (l ++ [x]).getD l.length d = x := by
  have h : l.length < (l ++ [x]).length := by simp
  rw [List.getD_eq_getElem?_getD, List.getElem?_eq_getElem h]
  simp

/-- `getD` inside the left part of an append. -/
theorem getD_append_lt {α : Type} (l l2 : List α) (d : α) (j : Nat) (h : j < l.length) :
    (l ++ l2).getD j d = l.getD j d := by
  rw [List.getD_eq_getElem?_getD, List.getD_eq_getElem?_getD, List.getElem?_append_left h]

/-! ### Claims -/

/-- C4: The domain-face classifier is a pure predicate that, for every
particle position, dimension index, side, and domain bounds, returns true
if and only if the particle's coordinate along that dimension is strictly
below the low bound (low side, side 0) or at-or-above the high bound
(high side, side 1). -/
theorem C4_domain_face_classifier (plo phi : List ℚ) (d : Nat) (p : Particle) :
    (IsOutsideDomainBoundary plo phi d 0 p = true ↔ p.pos.getD d 0 < plo.getD d 0) ∧
    (IsOutsideDomainBoundary plo phi d 1 p = true ↔ phi.getD d 0 ≤ p.pos.getD d 0) := by
  unfold IsOutsideDomainBoundary
  constructor <;> simp

/-- With `remove_negative = false` the redistribute pass is rank-locally
the identity on the manager state. -/
theorem redistribute_eq_self (pbb : ParticleBoundaryBuffer) :
    redistribute pbb = pbb := by
  unfold redistribute
  have h : ∀ slot : Option PinnedContainer,
      (match slot with
       | some b => some (Redistribute false b)
       | none => none) = slot := by
    intro slot
    cases slot
    · rfl
    · simp [Redistribute]
  simp only [h]
  simp [List.map_id']

/-- The concrete state for the redistribute counterexample: one defined
buffer whose single particle carries the negative id -1. -/
def pbbC3 : ParticleBoundaryBuffer :=
  { species_names := ["electron"],
    particle_containers :=
      [[some { num_runtime_real := 0, num_runtime_int := 1,
               tiles := [[{ idcpu := -1, pos := [0, 0, 0], rdata := [1, 0, 0, 0],
                            runtime_rdata := [], runtime_idata := [7] }]] }]],
    do_boundary_buffer := [[true]] }

/-- C3 counterexample: the buffered particle with negative id -1 is still
present after `redistribute` (the call passes `remove_negative = false`),
so redistribute does not remove the negative-id subset. -/
theorem C3_counterexample :
    ({ idcpu := -1, pos := [0, 0, 0], rdata := [1, 0, 0, 0],
       runtime_rdata := [], runtime_idata := [7] } : Particle).idcpu < 0 ∧
    slotOf (redistribute pbbC3) 0 0 =
      some { num_runtime_real := 0, num_runtime_int := 1,
             tiles := [[{ idcpu := -1, pos := [0, 0, 0], rdata := [1, 0, 0, 0],
                          runtime_rdata := [], runtime_idata := [7] }]] } ∧
    getNumParticlesInContainer (redistribute pbbC3) "electron" 0 = 1 := by
  refine ⟨by decide, rfl, rfl⟩

/-- C3 (amended): `redistribute` reorganizes each defined buffer's
parallel layout while preserving every buffered particle — including
those with negative id, since the call passes `remove_negative = false` —
with unchanged attribute values, and is a no-op on undefined buffers;
rank-locally it is the identity on the manager state. -/
theorem C3_redistribute_preserves_all (pbb : ParticleBoundaryBuffer) :
    redistribute pbb = pbb :=
  redistribute_eq_self pbb

/-- Manager state for the buffer-access counterexample: one species, all
seven boundary slots undefined, no pair configured active. -/
def pbbC6 : ParticleBoundaryBuffer :=
  { species_names := ["electron"],
    particle_containers := [[none], [none], [none], [none], [none], [none], [none]],
    do_boundary_buffer :=
      [[false], [false], [false], [false], [false], [false], [false]] }

/-- C6 counterexample: with the (boundary 0, electron) pair not
configured active and no buffer ever defined, the pointer variant
returns normally (no assertion of any kind fires) instead of failing. -/
theorem C6_counterexample :
    (pbbC6.do_boundary_buffer.getD 0 []).getD (getSpeciesID pbbC6 "electron") false
        = false ∧
    slotOf pbbC6 0 (getSpeciesID pbbC6 "electron") = none ∧
    getParticleBufferPointer pbbC6 "electron" 0 = Except.ok none := by
  refine ⟨rfl, rfl, rfl⟩

/-- C6 (amended): `getParticleBuffer` fails with a fatal assertion when
the requested (boundary, species) pair is not configured active, or when
no buffer was ever defined for it, and otherwise returns the buffer
container; the pointer variant performs no such checks and returns the
slot address unconditionally. -/
theorem C6_buffer_access_contract (pbb : ParticleBoundaryBuffer) (nm : String)
    (bd : Nat) :
    ((pbb.do_boundary_buffer.getD bd []).getD (getSpeciesID pbb nm) false = false →
      ∃ msg, getParticleBuffer pbb nm bd = Except.error msg) ∧
    ((pbb.do_boundary_buffer.getD bd []).getD (getSpeciesID pbb nm) false = true →
      slotOf pbb bd (getSpeciesID pbb nm) = none →
      ∃ msg, getParticleBuffer pbb nm bd = Except.error msg) ∧
    (∀ b, (pbb.do_boundary_buffer.getD bd []).getD (getSpeciesID pbb nm) false = true →
      slotOf pbb bd (getSpeciesID pbb nm) = some b →
      getParticleBuffer pbb nm bd = Except.ok b) ∧
    getParticleBufferPointer pbb nm bd =
      Except.ok (slotOf pbb bd (getSpeciesID pbb nm)) := by
  refine ⟨?_, ?_, ?_, rfl⟩
  · intro hoff
    unfold getParticleBuffer
    dsimp only
    rw [hoff]
    exact ⟨_, rfl⟩
  · intro hon hnone
    unfold getParticleBuffer
    dsimp only
    rw [hon, hnone]
    exact ⟨_, rfl⟩
  · intro b hon hsome
    unfold getParticleBuffer
    dsimp only
    rw [hon, hsome]
    rfl

/-- Manager state for the buffer-access witness: one species with an
active, defined buffer at boundary 0. -/
def pbbC6w : ParticleBoundaryBuffer :=
  { species_names := ["electron"],
    particle_containers :=
      [[some { num_runtime_real := 0, num_runtime_int := 1, tiles := [] }]],
    do_boundary_buffer := [[true]] }

/-- C6 witness: at a concrete active, defined pair the accessor returns
the container and the pointer variant returns the slot. -/
theorem C6_buffer_access_witness :
    getParticleBuffer pbbC6w "electron" 0 =
      Except.ok { num_runtime_real := 0, num_runtime_int := 1, tiles := [] } ∧
    getParticleBufferPointer pbbC6w "electron" 0 =
      Except.ok (some { num_runtime_real := 0, num_runtime_int := 1, tiles := [] }) :=
  ⟨(C6_buffer_access_contract pbbC6w "electron" 0).2.2.1 _ rfl rfl,
   (C6_buffer_access_contract pbbC6w "electron" 0).2.2.2⟩

/-- C2: For every particle matched during gather (domain-face case via
`CopyAndTimestamp`, embedded-boundary case via
`FindBoundaryIntersection`), the compaction copies the id, all fixed real
attributes, all runtime real attributes and all runtime integer
attributes unchanged, then (embedded-boundary case only) overwrites the
position with the refined intersection position, and the destination's
timestamp runtime integer attribute — the last destination slot — equals
the simulation step index `S` passed by the gather. -/
theorem C2_transform_copy_contract (S : Int) (dt : ℚ) (phiAt : ℚ → ℚ → ℚ → ℚ)
    (nrr nri : Nat) (p : Particle)
    (h1 : p.runtime_rdata.length = nrr) (h2 : p.runtime_idata.length = nri) :
    CopyAndTimestamp nri S nrr (nri + 1) p =
        { p with runtime_idata := p.runtime_idata ++ [S] } ∧
    (CopyAndTimestamp nri S nrr (nri + 1) p).runtime_idata.getD nri 0 = S ∧
    FindBoundaryIntersection nri S dt phiAt nrr (nri + 1) p =
        { p with runtime_idata := p.runtime_idata ++ [S],
                 pos := ebIntersectionPos phiAt dt p } ∧
    (FindBoundaryIntersection nri S dt phiAt nrr (nri + 1) p).runtime_idata.getD nri 0
        = S := by
  refine ⟨CopyAndTimestamp_eq S nrr nri p h1 h2, ?_,
    FindBoundaryIntersection_eq S dt phiAt nrr nri p h1 h2, ?_⟩
  · rw [CopyAndTimestamp_eq S nrr nri p h1 h2]
    subst h2
    exact getD_append_length _ _ _
  · rw [FindBoundaryIntersection_eq S dt phiAt nrr nri p h1 h2]
    subst h2
    exact getD_append_length _ _ _

/-- Concrete particle for the copy-contract witness. -/
def pC2 : Particle :=
  { idcpu := 3, pos := [0, 0, 0], rdata := [1, 0, 0, 1],
    runtime_rdata := [], runtime_idata := [] }

/-- C2 witness: at a concrete particle with no runtime attributes the
copy appends the timestamp 5 as the single runtime integer slot. -/
theorem C2_transform_copy_witness :
    pC2.runtime_rdata.length = 0 ∧ pC2.runtime_idata.length = 0 ∧
    CopyAndTimestamp 0 5 0 (0 + 1) pC2 = { pC2 with runtime_idata := [5] } ∧
    (CopyAndTimestamp 0 5 0 (0 + 1) pC2).runtime_idata.getD 0 0 = 5 :=
  ⟨rfl, rfl,
   (C2_transform_copy_contract 5 1 (fun _ _ _ => 0) 0 0 pC2 rfl rfl).1,
   (C2_transform_copy_contract 5 1 (fun _ _ _ => 0) 0 0 pC2 rfl rfl).2.1⟩

/-- The runtime integer data written by `CopyAndTimestamp` when the
destination has one extra component and the timestamp index is the last
slot: the source's runtime integers followed by the timestamp. -/
theorem CopyAndTimestamp_ridata (ts : Int) (nrr nri : Nat) (p : Particle)
    (h2 : p.runtime_idata.length = nri) :
    (CopyAndTimestamp nri ts nrr (nri + 1) p).runtime_idata
      = p.runtime_idata ++ [ts] := by
  subst h2
  unfold CopyAndTimestamp
  exact range_map_getD_set _ _ _

/-- C10: a buffer slot produced by the face gather holds exactly one more
runtime integer component than its source container (the timestamp is
added once at buffer creation and maintained across gathers), the
timestamp index `NumRuntimeIntComps() - 1` equals the source's runtime
integer count `n`, and the compaction copies the source's runtime integer
attributes into destination slots `0..n-1` while the timestamp is written
at slot `n`, so the timestamp write never clobbers a copied attribute. -/
theorem C10_timestamp_never_clobbers (plo phi : List ℚ) (d iside : Nat) (ts : Int)
    (pc : ParticleContainer) (slot : Option PinnedContainer)
    (hinv : ∀ b, slot = some b → b.num_runtime_int = pc.num_runtime_int + 1) :
    (gatherFaceSlot plo phi d iside ts pc slot).num_runtime_int
        = pc.num_runtime_int + 1 ∧
    (gatherFaceSlot plo phi d iside ts pc slot).num_runtime_int - 1
        = pc.num_runtime_int ∧
    (∀ p : Particle, p.runtime_idata.length = pc.num_runtime_int →
      (∀ j, j < pc.num_runtime_int →
        (CopyAndTimestamp pc.num_runtime_int ts
            (gatherFaceSlot plo phi d iside ts pc slot).num_runtime_real
            (pc.num_runtime_int + 1) p).runtime_idata.getD j 0
          = p.runtime_idata.getD j 0) ∧
      (CopyAndTimestamp pc.num_runtime_int ts
          (gatherFaceSlot plo phi d iside ts pc slot).num_runtime_real
          (pc.num_runtime_int + 1) p).runtime_idata.getD pc.num_runtime_int 0
        = ts) := by
  have hb : (gatherFaceSlot plo phi d iside ts pc slot).num_runtime_int
      = (defineIfUndefined pc slot).num_runtime_int := rfl
  have hdn : (defineIfUndefined pc slot).num_runtime_int = pc.num_runtime_int + 1 := by
    cases slot with
    | none => rfl
    | some b => exact hinv b rfl
  refine ⟨hb.trans hdn, by rw [hb, hdn]; omega, ?_⟩
  intro p hp
  constructor
  · intro j hj
    rw [CopyAndTimestamp_ridata ts _ pc.num_runtime_int p hp]
    exact getD_append_lt _ _ _ _ (by rw [hp]; exact hj)
  · rw [CopyAndTimestamp_ridata ts _ pc.num_runtime_int p hp, ← hp]
    exact getD_append_length _ _ _

/-- Concrete source container for the timestamp-layout witness: two
runtime integer components. -/
def pcC10 : ParticleContainer :=
  { num_runtime_real := 0, num_runtime_int := 2, tiles := [] }

/-- Concrete particle for the timestamp-layout witness. -/
def pC10 : Particle :=
  { idcpu := 1, pos := [0, 0, 0], rdata := [0, 0, 0, 0],
    runtime_rdata := [], runtime_idata := [11, 22] }

/-- C10 witness: at a freshly created buffer for a two-runtime-int
source, the buffer has three runtime int components, slot 1 keeps the
copied value 22 and the timestamp 9 lands in slot 2. -/
theorem C10_timestamp_witness :
    pC10.runtime_idata.length = pcC10.num_runtime_int ∧
    (gatherFaceSlot [] [] 0 0 9 pcC10 none).num_runtime_int
        = pcC10.num_runtime_int + 1 ∧
    (CopyAndTimestamp pcC10.num_runtime_int 9
        (gatherFaceSlot [] [] 0 0 9 pcC10 none).num_runtime_real
        (pcC10.num_runtime_int + 1) pC10).runtime_idata.getD 1 0
      = pC10.runtime_idata.getD 1 0 ∧
    (CopyAndTimestamp pcC10.num_runtime_int 9
        (gatherFaceSlot [] [] 0 0 9 pcC10 none).num_runtime_real
        (pcC10.num_runtime_int + 1) pC10).runtime_idata.getD pcC10.num_runtime_int 0
      = 9 :=
  ⟨rfl,
   (C10_timestamp_never_clobbers [] [] 0 0 9 pcC10 none
     (fun b hb => Option.noConfusion hb)).1,
   ((C10_timestamp_never_clobbers [] [] 0 0 9 pcC10 none
     (fun b hb => Option.noConfusion hb)).2.2 pC10 rfl).1 1 (by decide),
   ((C10_timestamp_never_clobbers [] [] 0 0 9 pcC10 none
     (fun b hb => Option.noConfusion hb)).2.2 pC10 rfl).2⟩

/-- Two particles agreeing on all fields are equal. -/
theorem particle_eq_of_fields {q p : Particle} (h1 : q.idcpu = p.idcpu)
    (h2 : q.pos = p.pos) (h3 : q.rdata = p.rdata)
    (h4 : q.runtime_rdata = p.runtime_rdata)
    (h5 : q.runtime_idata = p.runtime_idata) : q = p := by
  cases q; cases p; simp_all

/-- C1: a particle whose coordinate along non-periodic dimension `d` lies
strictly below the low domain bound is appended, with its full attribute
set (timestamp added), exactly once to the `(d, low)` buffer of its
species by one `gatherParticles` call, provided the (boundary, species)
pair is active; if dimension `d` is periodic, neither buffer of dimension
`d` is touched.  Well-formedness hypotheses: the tile's particles carry
the declared runtime component counts and a previously defined buffer
carries the timestamp layout. -/
theorem C1_low_face_gather (geom : Geometry) (phiAt : ℚ → ℚ → ℚ → ℚ) (dt : ℚ)
    (ts : Int) (mypc : List ParticleContainer) (pbb : ParticleBoundaryBuffer)
    (d i k : Nat) (p : Particle)
    (hd : d < SPACEDIM) (hi : i < pbb.species_names.length)
    (hact : (pbb.do_boundary_buffer.getD (2 * d) []).getD i false = true)
    (hcnt : ((mypc.getD i defaultPC).tiles.getD k []).count p = 1)
    (hlow : p.pos.getD d 0 < geom.prob_lo.getD d 0)
    (hwf : ∀ q ∈ (mypc.getD i defaultPC).tiles.getD k [],
      q.runtime_rdata.length = (mypc.getD i defaultPC).num_runtime_real ∧
      q.runtime_idata.length = (mypc.getD i defaultPC).num_runtime_int)
    (hslot : ∀ b0, slotOf pbb (2 * d) i = some b0 →
      b0.num_runtime_int = (mypc.getD i defaultPC).num_runtime_int + 1 ∧
      b0.num_runtime_real = (mypc.getD i defaultPC).num_runtime_real) :
    (geom.is_periodic.getD d false = false →
      ∃ b' app,
        slotOf (gatherParticles geom phiAt dt ts mypc pbb).2 (2 * d) i = some b' ∧
        b'.tiles.getD k [] =
          (defineIfUndefined (mypc.getD i defaultPC)
            (slotOf pbb (2 * d) i)).tiles.getD k [] ++ app ∧
        app.count { p with runtime_idata := p.runtime_idata ++ [ts] } = 1) ∧
    (geom.is_periodic.getD d false = true →
      slotOf (gatherParticles geom phiAt dt ts mypc pbb).2 (2 * d) i
          = slotOf pbb (2 * d) i ∧
      slotOf (gatherParticles geom phiAt dt ts mypc pbb).2 (2 * d + 1) i
          = slotOf pbb (2 * d + 1) i) := by
  have hd3 : d < 3 := by simpa [SPACEDIM] using hd
  have hib0 : 2 * d < numBoundaries := by simp only [numBoundaries, SPACEDIM]; omega
  have hib1 : 2 * d + 1 < numBoundaries := by simp only [numBoundaries, SPACEDIM]; omega
  have h2d0 : 2 * d / 2 = d := by omega
  have h2d1 : (2 * d + 1) / 2 = d := by omega
  have hm0 : 2 * d % 2 = 0 := by omega
  have hlt0 : 2 * d < 2 * SPACEDIM := by simp only [SPACEDIM]; omega
  have hlt1 : 2 * d + 1 < 2 * SPACEDIM := by simp only [SPACEDIM]; omega
  constructor
  · -- non-periodic: the particle is appended exactly once to the low buffer
    intro hper
    rw [gatherParticles_slot geom phiAt dt ts mypc pbb (2 * d) i hib0 hi, if_pos hact]
    unfold gatherSlot
    rw [if_pos hlt0, h2d0, hm0, if_neg (by rw [hper]; exact Bool.false_ne_true)]
    set pc := mypc.getD i defaultPC with hpcdef
    set b := defineIfUndefined pc (slotOf pbb (2 * d) i) with hbdef
    have hbn : b.num_runtime_int = pc.num_runtime_int + 1 ∧
        b.num_runtime_real = pc.num_runtime_real := by
      rcases hsv : slotOf pbb (2 * d) i with _ | b0
      · rw [hbdef, hsv]
        exact ⟨rfl, rfl⟩
      · rw [hbdef, hsv]
        exact hslot b0 hsv
    have hidx : b.num_runtime_int - 1 = pc.num_runtime_int := by omega
    refine ⟨gatherFaceSlot geom.prob_lo geom.prob_hi d 0 ts pc (slotOf pbb (2 * d) i),
      ((pc.tiles.getD k []).filter
          (IsOutsideDomainBoundary geom.prob_lo geom.prob_hi d 0)).map
        (CopyAndTimestamp (b.num_runtime_int - 1) ts b.num_runtime_real
          b.num_runtime_int),
      rfl, ?_, ?_⟩
    · exact gatherFaceSlot_tiles geom.prob_lo geom.prob_hi d 0 ts pc
        (slotOf pbb (2 * d) i) k
    · have copy_eq : ∀ q ∈ pc.tiles.getD k [],
          CopyAndTimestamp (b.num_runtime_int - 1) ts b.num_runtime_real
              b.num_runtime_int q
            = { q with runtime_idata := q.runtime_idata ++ [ts] } := by
        intro q hq
        rw [hidx, hbn.2, hbn.1]
        exact CopyAndTimestamp_eq ts _ _ q (hwf q hq).1 (hwf q hq).2
      have hmem : p ∈ pc.tiles.getD k [] := by
        apply List.count_pos_iff.mp
        rw [hcnt]
        exact Nat.one_pos
      have hpred : IsOutsideDomainBoundary geom.prob_lo geom.prob_hi d 0 p = true := by
        unfold IsOutsideDomainBoundary
        exact decide_eq_true hlow
      rw [← copy_eq p hmem]
      rw [count_map_inj_at _ p _ ?hinj]
      · rw [List.count_filter hpred, hcnt]
      case hinj =>
        intro q hq
        have hq' := (List.mem_filter.mp hq).1
        constructor
        · intro hcc
          rw [copy_eq q hq', copy_eq p hmem] at hcc
          simp only [Particle.mk.injEq] at hcc
          obtain ⟨e1, e2, e3, e4, e5⟩ := hcc
          exact particle_eq_of_fields e1 e2 e3 e4 (List.append_inj_left' e5 rfl)
        · intro hqp
          rw [hqp]
  · -- periodic: both buffers of dimension d are untouched
    intro hper
    constructor
    · rw [gatherParticles_slot geom phiAt dt ts mypc pbb (2 * d) i hib0 hi]
      by_cases ha : (pbb.do_boundary_buffer.getD (2 * d) []).getD i false = true
      · rw [if_pos ha]
        unfold gatherSlot
        rw [if_pos hlt0, h2d0, if_pos hper]
      · rw [if_neg ha]
    · rw [gatherParticles_slot geom phiAt dt ts mypc pbb (2 * d + 1) i hib1 hi]
      by_cases ha : (pbb.do_boundary_buffer.getD (2 * d + 1) []).getD i false = true
      · rw [if_pos ha]
        unfold gatherSlot
        rw [if_pos hlt1, h2d1, if_pos hper]
      · rw [if_neg ha]

/-- Concrete geometry for the gather witnesses: domain [0,10]^3, no
periodic dimension. -/
def geomW : Geometry :=
  { prob_lo := [0, 0, 0], prob_hi := [10, 10, 10],
    is_periodic := [false, false, false] }

/-- A particle that left the domain through the low x face. -/
def pW1 : Particle :=
  { idcpu := 1, pos := [-1, 5, 5], rdata := [1, 0, 0, 0],
    runtime_rdata := [], runtime_idata := [] }

/-- One species whose single tile holds that particle. -/
def mypcW1 : List ParticleContainer :=
  [{ num_runtime_real := 0, num_runtime_int := 0, tiles := [[pW1]] }]

/-- Manager state: only the (xlo, electron) pair is active, no buffer
defined yet. -/
def pbbW1 : ParticleBoundaryBuffer :=
  { species_names := ["electron"],
    particle_containers := [[none], [none], [none], [none], [none], [none], [none]],
    do_boundary_buffer :=
      [[true], [false], [false], [false], [false], [false], [false]] }

/-- C1 witness: the particle at x = -1 in the domain [0,10]^3 with x
non-periodic is appended exactly once to the low-x buffer by one gather. -/
theorem C1_low_face_witness :
    geomW.is_periodic.getD 0 false = false ∧
    ((mypcW1.getD 0 defaultPC).tiles.getD 0 []).count pW1 = 1 ∧
    pW1.pos.getD 0 0 < geomW.prob_lo.getD 0 0 ∧
    ∃ b' app,
      slotOf (gatherParticles geomW (fun _ _ _ => 1) 1 4 mypcW1 pbbW1).2 0 0 = some b' ∧
      b'.tiles.getD 0 [] =
        (defineIfUndefined (mypcW1.getD 0 defaultPC)
          (slotOf pbbW1 0 0)).tiles.getD 0 [] ++ app ∧
      app.count { pW1 with runtime_idata := pW1.runtime_idata ++ [4] } = 1 := by
  refine ⟨rfl, by decide, by decide, ?_⟩
  exact (C1_low_face_gather geomW (fun _ _ _ => 1) 1 4 mypcW1 pbbW1 0 0 0 pW1
    (by decide) (by decide) (by decide) (by decide) (by decide) (by decide)
    (fun b0 hb => Option.noConfusion hb)).1 rfl

/-- The tiles of an optional buffer slot (an undefined slot holds none). -/
def slotTiles (slot : Option PinnedContainer) (k : Nat) : List Particle :=
  match slot with
  | some b => b.tiles.getD k []
  | none => []

/-- The defined buffer's tile content agrees with the optional slot's. -/
theorem defineIfUndefined_tiles (pc : ParticleContainer)
    (slot : Option PinnedContainer) (k : Nat) :
    (defineIfUndefined pc slot).tiles.getD k [] = slotTiles slot k := by
  cases slot <;> rfl

/-- `slotTiles` of a defined slot. -/
theorem slotTiles_some (b : PinnedContainer) (k : Nat) :
    slotTiles (some b) k = b.tiles.getD k [] := rfl

/-- C9: `gatherParticles` never mutates the source particles — the live
containers come back unchanged, for every species and every tile — and
its only side effect is growing the buffer containers: every buffer tile
of every slot is extended by appending, and the configuration fields are
untouched. -/
theorem C9_gather_never_mutates_sources (geom : Geometry) (phiAt : ℚ → ℚ → ℚ → ℚ)
    (dt : ℚ) (ts : Int) (mypc : List ParticleContainer)
    (pbb : ParticleBoundaryBuffer) :
    (gatherParticles geom phiAt dt ts mypc pbb).1 = mypc ∧
    (gatherParticles geom phiAt dt ts mypc pbb).2.species_names
        = pbb.species_names ∧
    (gatherParticles geom phiAt dt ts mypc pbb).2.do_boundary_buffer
        = pbb.do_boundary_buffer ∧
    (∀ ib, ib < numBoundaries → ∀ i, i < pbb.species_names.length → ∀ k,
      ∃ app, slotTiles (slotOf (gatherParticles geom phiAt dt ts mypc pbb).2 ib i) k
        = slotTiles (slotOf pbb ib i) k ++ app) := by
  refine ⟨rfl, rfl, rfl, ?_⟩
  intro ib hib i hi k
  rw [gatherParticles_slot geom phiAt dt ts mypc pbb ib i hib hi]
  by_cases ha : (pbb.do_boundary_buffer.getD ib []).getD i false = true
  · rw [if_pos ha]
    unfold gatherSlot
    by_cases hfb : ib < 2 * SPACEDIM
    · rw [if_pos hfb]
      by_cases hper : geom.is_periodic.getD (ib / 2) false = true
      · rw [if_pos hper]
        exact ⟨[], (List.append_nil _).symm⟩
      · rw [if_neg hper]
        have h := gatherFaceSlot_tiles geom.prob_lo geom.prob_hi (ib / 2) (ib % 2) ts
          (mypc.getD i defaultPC) (slotOf pbb ib i) k
        rw [defineIfUndefined_tiles] at h
        exact ⟨_, by rw [slotTiles_some]; exact h⟩
    · rw [if_neg hfb]
      have h := gatherEBSlot_tiles phiAt dt ts
        (mypc.getD i defaultPC) (slotOf pbb ib i) k
      rw [defineIfUndefined_tiles] at h
      exact ⟨_, by rw [slotTiles_some]; exact h⟩
  · rw [if_neg ha]
    exact ⟨[], (List.append_nil _).symm⟩

/-- C9 witness: at the concrete one-particle state the sources are
returned unchanged and the active slot's tile grows by appending. -/
theorem C9_gather_witness :
    (gatherParticles geomW (fun _ _ _ => 1) 1 4 mypcW1 pbbW1).1 = mypcW1 ∧
    ∃ app, slotTiles (slotOf (gatherParticles geomW (fun _ _ _ => 1) 1 4
        mypcW1 pbbW1).2 0 0) 0 = slotTiles (slotOf pbbW1 0 0) 0 ++ app :=
  ⟨(C9_gather_never_mutates_sources geomW (fun _ _ _ => 1) 1 4 mypcW1 pbbW1).1,
   (C9_gather_never_mutates_sources geomW (fun _ _ _ => 1) 1 4 mypcW1 pbbW1).2.2.2
     0 (by decide) 0 (by decide) 0⟩

/-! ### Clearing: characterization of the per-boundary fold -/

/-- `getD` of `set` at the written index, inside the list. -/
theorem getD_set_self {α : Type} (l : List α) (i : Nat) (x d : α)
    (h : i < l.length) : (l.set i x).getD i d = x := by
  have h2 : i < (l.set i x).length := by simpa using h
  rw [List.getD_eq_getElem?_getD, List.getElem?_eq_getElem h2, List.getElem_set]
  simp

/-- `getD` of `set` away from the written index. -/
theorem getD_set_ne {α : Type} (l : List α) (i j : Nat) (x d : α) (h : i ≠ j) :
    (l.set i x).getD j d = l.getD j d := by
  rw [List.getD_eq_getElem?_getD, List.getD_eq_getElem?_getD,
    List.getElem?_set_ne h]

/-- `getD` through a `clearSlot` map. -/
theorem getD_map_clearSlot (l : List (Option PinnedContainer)) (i : Nat) :
    (l.map clearSlot).getD i none = clearSlot (l.getD i none) := by
  by_cases h : i < l.length
  · have h2 : i < (l.map clearSlot).length := by simpa using h
    rw [List.getD_eq_getElem?_getD, List.getElem?_eq_getElem h2,
      List.getD_eq_getElem?_getD, List.getElem?_eq_getElem h]
    simp
  · push_neg at h
    rw [getD_default _ _ _ (by simpa using h), getD_default _ _ _ h]
    rfl

/-- Clearing a slot twice is the same as clearing it once. -/
theorem clearSlot_idem (s : Option PinnedContainer) :
    clearSlot (clearSlot s) = clearSlot s := by
  cases s <;> rfl

/-- Clearing preserves whether the slot is defined. -/
theorem clearSlot_isSome (s : Option PinnedContainer) :
    (clearSlot s).isSome = s.isSome := by
  cases s <;> rfl

/-- The fold in `clearParticlesAll` keeps the configuration fields and
maps `clearSlot` over the boundary lists with index below `n`. -/
theorem foldl_clear_spec (pbb : ParticleBoundaryBuffer) (n : Nat) :
    ((List.range n).foldl clearParticlesAt pbb).species_names = pbb.species_names ∧
    ((List.range n).foldl clearParticlesAt pbb).do_boundary_buffer
        = pbb.do_boundary_buffer ∧
    ((List.range n).foldl clearParticlesAt pbb).particle_containers.length
        = pbb.particle_containers.length ∧
    ∀ ib, ((List.range n).foldl clearParticlesAt pbb).particle_containers.getD ib []
        = if ib < n then (pbb.particle_containers.getD ib []).map clearSlot
          else pbb.particle_containers.getD ib [] := by
  induction n with
  | zero =>
    refine ⟨rfl, rfl, rfl, ?_⟩
    intro ib
    simp
  | succ n ih =>
    obtain ⟨ih1, ih2, ih3, ih4⟩ := ih
    rw [List.range_succ, List.foldl_append]
    set prev := (List.range n).foldl clearParticlesAt pbb with hprev
    simp only [List.foldl_cons, List.foldl_nil]
    refine ⟨ih1, ih2, ?_, ?_⟩
    · show (prev.particle_containers.set n _).length = _
      rw [List.length_set]
      exact ih3
    · intro ib
      show (prev.particle_containers.set n
        ((prev.particle_containers.getD n []).map clearSlot)).getD ib [] = _
      by_cases hib : ib = n
      · subst hib
        by_cases hlen : ib < prev.particle_containers.length
        · rw [getD_set_self _ _ _ _ hlen, ih4 ib, if_neg (lt_irrefl ib),
            if_pos (Nat.lt_succ_self ib)]
        · push_neg at hlen
          rw [List.set_eq_of_length_le hlen, getD_default _ _ _ hlen,
            if_pos (Nat.lt_succ_self ib)]
          have hlen2 : pbb.particle_containers.length ≤ ib := by
            rw [← ih3]; exact hlen
          rw [getD_default _ _ _ hlen2]
          rfl
      · rw [getD_set_ne _ _ _ _ _ (fun he => hib he.symm), ih4 ib]
        by_cases hn : ib < n
        · rw [if_pos hn, if_pos (by omega)]
        · rw [if_neg hn, if_neg (by omega)]

/-- `clearParticlesAll` clears every slot at a valid boundary index. -/
theorem clearAll_slot (pbb : ParticleBoundaryBuffer) (ib i : Nat)
    (hib : ib < numBoundaries) :
    slotOf (clearParticlesAll pbb) ib i = clearSlot (slotOf pbb ib i) := by
  unfold clearParticlesAll slotOf
  rw [(foldl_clear_spec pbb numBoundaries).2.2.2 ib, if_pos hib]
  exact getD_map_clearSlot _ _

/-- `clearParticlesAll` touches no out-of-range boundary index. -/
theorem clearAll_slot_ge (pbb : ParticleBoundaryBuffer) (ib i : Nat)
    (hib : numBoundaries ≤ ib) :
    slotOf (clearParticlesAll pbb) ib i = slotOf pbb ib i := by
  unfold clearParticlesAll slotOf
  rw [(foldl_clear_spec pbb numBoundaries).2.2.2 ib, if_neg (by omega)]

/-- Two manager states agreeing on all fields are equal. -/
theorem pbb_eq_of_fields {a b : ParticleBoundaryBuffer}
    (h1 : a.species_names = b.species_names)
    (h2 : a.particle_containers = b.particle_containers)
    (h3 : a.do_boundary_buffer = b.do_boundary_buffer) : a = b := by
  cases a; cases b; simp_all

/-- `getElem` as `getD`, for in-range indices. -/
theorem getElem_eq_getD {α : Type} (l : List α) (d : α) (j : Nat)
    (h : j < l.length) : l[j] = l.getD j d := by
  rw [List.getD_eq_getElem?_getD, List.getElem?_eq_getElem h]
  rfl

/-- A particle whose position is inside the domain `[0,10]^3` (it matches
no domain face). -/
def pC7 : Particle :=
  { idcpu := 2, pos := [5, 5, 5], rdata := [1, 0, 0, 0],
    runtime_rdata := [], runtime_idata := [] }

/-- One species whose single tile holds that interior particle. -/
def mypcC7 : List ParticleContainer :=
  [{ num_runtime_real := 0, num_runtime_int := 0, tiles := [[pC7]] }]

/-- C7 counterexample: with only the (xlo, electron) pair active and a
single particle strictly inside the domain, one gather leaves the buffer
with zero particles (no particle ever matched the pair) and yet the
container is already instantiated — creation does not wait for the first
particle match. -/
theorem C7_counterexample :
    IsOutsideDomainBoundary geomW.prob_lo geomW.prob_hi 0 0 pC7 = false ∧
    slotOf pbbW1 0 0 = none ∧
    (slotOf (gatherParticles geomW (fun _ _ _ => 1) 1 4 mypcC7 pbbW1).2 0 0).isSome
        = true ∧
    getNumParticlesInContainer
      (gatherParticles geomW (fun _ _ _ => 1) 1 4 mypcC7 pbbW1).2 "electron" 0 = 0 :=
  ⟨rfl, rfl, rfl, rfl⟩

/-- C7 (amended): a (boundary, species) buffer container is instantiated
lazily on the first `gatherParticles` call that processes the pair as
active (for a face boundary, with its dimension non-periodic), whether or
not any particle matches; once created it persists for the run: gathers
append to its tiles and never overwrite or drop buffered particles, and
neither clearing nor redistribution destroys the container. -/
theorem C7_buffer_lifecycle (geom : Geometry) (phiAt : ℚ → ℚ → ℚ → ℚ) (dt : ℚ)
    (ts : Int) (mypc : List ParticleContainer) (pbb : ParticleBoundaryBuffer)
    (ib i : Nat) (hib : ib < numBoundaries) (hi : i < pbb.species_names.length)
    (hact : (pbb.do_boundary_buffer.getD ib []).getD i false = true)
    (hper : ib < 2 * SPACEDIM → geom.is_periodic.getD (ib / 2) false = false) :
    (slotOf (gatherParticles geom phiAt dt ts mypc pbb).2 ib i).isSome = true ∧
    (∀ b, slotOf pbb ib i = some b → ∀ k, ∃ app,
      slotTiles (slotOf (gatherParticles geom phiAt dt ts mypc pbb).2 ib i) k
        = b.tiles.getD k [] ++ app) ∧
    (∀ ib2 i2, (slotOf (clearParticlesAll pbb) ib2 i2).isSome
        = (slotOf pbb ib2 i2).isSome) ∧
    (∀ ib2 i2, slotOf (redistribute pbb) ib2 i2 = slotOf pbb ib2 i2) := by
  refine ⟨?_, ?_, ?_, ?_⟩
  · rw [gatherParticles_slot geom phiAt dt ts mypc pbb ib i hib hi, if_pos hact]
    unfold gatherSlot
    by_cases hfb : ib < 2 * SPACEDIM
    · rw [if_pos hfb, if_neg (by rw [hper hfb]; exact Bool.false_ne_true)]
      rfl
    · rw [if_neg hfb]
      rfl
  · intro b hb k
    rw [gatherParticles_slot geom phiAt dt ts mypc pbb ib i hib hi, if_pos hact]
    unfold gatherSlot
    by_cases hfb : ib < 2 * SPACEDIM
    · rw [if_pos hfb, if_neg (by rw [hper hfb]; exact Bool.false_ne_true)]
      have h := gatherFaceSlot_tiles geom.prob_lo geom.prob_hi (ib / 2) (ib % 2) ts
        (mypc.getD i defaultPC) (some b) k
      rw [defineIfUndefined_tiles, slotTiles_some] at h
      exact ⟨_, by rw [slotTiles_some, hb]; exact h⟩
    · rw [if_neg hfb]
      have h := gatherEBSlot_tiles phiAt dt ts
        (mypc.getD i defaultPC) (some b) k
      rw [defineIfUndefined_tiles, slotTiles_some] at h
      exact ⟨_, by rw [slotTiles_some, hb]; exact h⟩
  · intro ib2 i2
    by_cases h2 : ib2 < numBoundaries
    · rw [clearAll_slot pbb ib2 i2 h2, clearSlot_isSome]
    · rw [clearAll_slot_ge pbb ib2 i2 (by omega)]
  · intro ib2 i2
    rw [redistribute_eq_self]

/-- C7 witness: at the concrete interior-particle state the active slot
is defined after one gather and redistribution touches no slot. -/
theorem C7_buffer_lifecycle_witness :
    (slotOf (gatherParticles geomW (fun _ _ _ => 1) 1 4 mypcC7 pbbW1).2 0 0).isSome
        = true ∧
    (∀ ib2 i2, slotOf (redistribute pbbW1) ib2 i2 = slotOf pbbW1 ib2 i2) :=
  ⟨(C7_buffer_lifecycle geomW (fun _ _ _ => 1) 1 4 mypcC7 pbbW1 0 0
      (by decide) (by decide) (by decide) (fun _ => rfl)).1,
   (C7_buffer_lifecycle geomW (fun _ _ _ => 1) 1 4 mypcC7 pbbW1 0 0
      (by decide) (by decide) (by decide) (fun _ => rfl)).2.2.2⟩

/-- C8: `clearParticles` is idempotent: clearing an already-empty manager
leaves every count at 0, clearing after gathers resets every count to 0
while preserving each buffer's defined state, and a subsequent
`getNumParticlesInContainer` returns 0 instead of failing. -/
theorem C8_clear_idempotent (pbb : ParticleBoundaryBuffer)
    (hlen : pbb.particle_containers.length = numBoundaries) :
    clearParticlesAll (clearParticlesAll pbb) = clearParticlesAll pbb ∧
    (∀ nm bd, getNumParticlesInContainer (clearParticlesAll pbb) nm bd = 0) ∧
    (∀ ib i, (slotOf (clearParticlesAll pbb) ib i).isSome
        = (slotOf pbb ib i).isSome) := by
  refine ⟨?_, ?_, ?_⟩
  · apply pbb_eq_of_fields
    · exact (foldl_clear_spec (clearParticlesAll pbb) numBoundaries).1.trans
        (foldl_clear_spec pbb numBoundaries).1
    · apply List.ext_getElem
      · exact ((foldl_clear_spec (clearParticlesAll pbb) numBoundaries).2.2.1.trans
          (foldl_clear_spec pbb numBoundaries).2.2.1).trans
          (foldl_clear_spec pbb numBoundaries).2.2.1.symm
      · intro j hj1 hj2
        rw [getElem_eq_getD _ [] j hj1, getElem_eq_getD _ [] j hj2]
        have hjB : j < numBoundaries := by
          have := (foldl_clear_spec pbb numBoundaries).2.2.1
          unfold clearParticlesAll at hj2
          omega
        show ((List.range numBoundaries).foldl clearParticlesAt
            (clearParticlesAll pbb)).particle_containers.getD j []
          = (clearParticlesAll pbb).particle_containers.getD j []
        rw [(foldl_clear_spec (clearParticlesAll pbb) numBoundaries).2.2.2 j,
          if_pos hjB]
        show ((clearParticlesAll pbb).particle_containers.getD j []).map clearSlot
          = _
        unfold clearParticlesAll
        rw [(foldl_clear_spec pbb numBoundaries).2.2.2 j, if_pos hjB,
          List.map_map]
        exact List.map_congr_left (fun s _ => clearSlot_idem s)
    · exact (foldl_clear_spec (clearParticlesAll pbb) numBoundaries).2.1.trans
        (foldl_clear_spec pbb numBoundaries).2.1
  · intro nm bd
    unfold getNumParticlesInContainer
    by_cases hbd : bd < numBoundaries
    · rw [clearAll_slot pbb bd _ hbd]
      cases slotOf pbb bd (getSpeciesID (clearParticlesAll pbb) nm) <;> rfl
    · rw [clearAll_slot_ge pbb bd _ (by omega)]
      have hnone : slotOf pbb bd (getSpeciesID (clearParticlesAll pbb) nm) = none := by
        unfold slotOf
        rw [getD_default pbb.particle_containers [] bd (by omega)]
        rfl
      rw [hnone]
  · intro ib i
    by_cases h2 : ib < numBoundaries
    · rw [clearAll_slot pbb ib i h2, clearSlot_isSome]
    · rw [clearAll_slot_ge pbb ib i (by omega)]

/-- The manager state right after the one-particle gather of the
witnesses: the (xlo, electron) buffer holds one particle. -/
def pbbC8 : ParticleBoundaryBuffer :=
  (gatherParticles geomW (fun _ _ _ => 1) 1 4 mypcW1 pbbW1).2

/-- C8 witness: after gathering one particle, clearing resets the count
from 1 to 0, clearing is idempotent, and the buffer stays defined. -/
theorem C8_clear_witness :
    pbbC8.particle_containers.length = numBoundaries ∧
    getNumParticlesInContainer pbbC8 "electron" 0 = 1 ∧
    clearParticlesAll (clearParticlesAll pbbC8) = clearParticlesAll pbbC8 ∧
    getNumParticlesInContainer (clearParticlesAll pbbC8) "electron" 0 = 0 ∧
    (slotOf (clearParticlesAll pbbC8) 0 0).isSome = (slotOf pbbC8 0 0).isSome :=
  ⟨rfl, rfl,
   (C8_clear_idempotent pbbC8 rfl).1,
   (C8_clear_idempotent pbbC8 rfl).2.1 "electron" 0,
   (C8_clear_idempotent pbbC8 rfl).2.2 0 0⟩

/-! ### Bisection: bracket invariant and residual bound -/

/-- The bisection keeps a sign-change bracket inside the initial
interval, narrows it to the tolerance or by halving per iteration, and
returns the midpoint of the final bracket. -/
theorem bisectAux_bracket (f : ℚ → ℚ) (tol : ℚ) :
    ∀ (n : Nat) (lo hi : ℚ), lo ≤ hi → f lo * f hi ≤ 0 →
    ∃ lo' hi', lo ≤ lo' ∧ lo' ≤ hi' ∧ hi' ≤ hi ∧ f lo' * f hi' ≤ 0 ∧
      hi' - lo' ≤ max tol ((hi - lo) / 2 ^ n) ∧
      bisectAux f tol n lo hi = (lo' + hi') / 2 := by
  intro n
  induction n with
  | zero =>
    intro lo hi hle hsign
    refine ⟨lo, hi, le_refl lo, hle, le_refl hi, hsign, ?_, rfl⟩
    rw [pow_zero]
    simp only [div_one]
    exact le_max_right tol (hi - lo)
  | succ n ih =>
    intro lo hi hle hsign
    rw [bisectAux]
    by_cases hw : hi - lo < tol
    · rw [if_pos hw]
      exact ⟨lo, hi, le_refl lo, hle, le_refl hi, hsign,
        le_trans (le_of_lt hw) (le_max_left _ _), rfl⟩
    · rw [if_neg hw]
      have hlm : lo ≤ (lo + hi) / 2 := by linarith
      have hmh : (lo + hi) / 2 ≤ hi := by linarith
      by_cases hs : f lo * f ((lo + hi) / 2) ≤ 0
      · rw [if_pos hs]
        obtain ⟨lo', hi', a1, a2, a3, a4, a5, a6⟩ := ih lo ((lo + hi) / 2) hlm hs
        refine ⟨lo', hi', a1, a2, le_trans a3 hmh, a4, ?_, a6⟩
        have he : ((lo + hi) / 2 - lo) / 2 ^ n = (hi - lo) / 2 ^ (n + 1) := by
          field_simp
          ring
        rw [he] at a5
        exact a5
      · rw [if_neg hs]
        have hpos : 0 < f lo * f ((lo + hi) / 2) := not_le.mp hs
        have hsign2 : f ((lo + hi) / 2) * f hi ≤ 0 := by
          rcases mul_pos_iff.mp hpos with ⟨h1, h2⟩ | ⟨h1, h2⟩
          · have hfh : f hi ≤ 0 := by nlinarith
            exact mul_nonpos_iff.mpr (Or.inl ⟨le_of_lt h2, hfh⟩)
          · have hfh : 0 ≤ f hi := by nlinarith
            exact mul_nonpos_iff.mpr (Or.inr ⟨le_of_lt h2, hfh⟩)
        obtain ⟨lo', hi', a1, a2, a3, a4, a5, a6⟩ := ih ((lo + hi) / 2) hi hmh hsign2
        refine ⟨lo', hi', le_trans hlm a1, a2, a3, a4, ?_, a6⟩
        have he : (hi - (lo + hi) / 2) / 2 ^ n = (hi - lo) / 2 ^ (n + 1) := by
          field_simp
          ring
        rw [he] at a5
        exact a5

/-- On a sign-change bracket of an `L`-Lipschitz function, the value at
the midpoint is at most `L` times the bracket width in absolute value. -/
theorem abs_mid_le (f : ℚ → ℚ) (L lo hi : ℚ) (hL0 : 0 ≤ L)
    (hL : ∀ a b : ℚ, |f a - f b| ≤ L * |a - b|)
    (hle : lo ≤ hi) (hsign : f lo * f hi ≤ 0) :
    |f ((lo + hi) / 2)| ≤ L * (hi - lo) := by
  have hlm : lo ≤ (lo + hi) / 2 := by linarith
  have hmh : (lo + hi) / 2 ≤ hi := by linarith
  have h1 := hL ((lo + hi) / 2) lo
  have h2 := hL ((lo + hi) / 2) hi
  have e1 : |(lo + hi) / 2 - lo| = (lo + hi) / 2 - lo := abs_of_nonneg (by linarith)
  have e2 : |(lo + hi) / 2 - hi| = hi - (lo + hi) / 2 := by
    rw [abs_sub_comm]
    exact abs_of_nonneg (by linarith)
  rw [e1] at h1
  rw [e2] at h2
  have hb1 := abs_le.mp h1
  have hb2 := abs_le.mp h2
  have hm1 : L * ((lo + hi) / 2 - lo) ≤ L * (hi - lo) :=
    mul_le_mul_of_nonneg_left (by linarith) hL0
  have hm2 : L * (hi - (lo + hi) / 2) ≤ L * (hi - lo) :=
    mul_le_mul_of_nonneg_left (by linarith) hL0
  rcases mul_nonpos_iff.mp hsign with ⟨hp, hq⟩ | ⟨hp, hq⟩
  · -- 0 ≤ f lo and f hi ≤ 0
    apply abs_le.mpr
    constructor
    · linarith [hb1.1]
    · linarith [hb2.2]
  · -- f lo ≤ 0 and 0 ≤ f hi
    apply abs_le.mpr
    constructor
    · linarith [hb2.1]
    · linarith [hb1.2]

/-- The residual of the default-parameter bisection over [0, 1] is within
`L` times the tolerance, for `L`-Lipschitz functions with a sign change. -/
theorem bisect_residual (f : ℚ → ℚ) (L : ℚ) (hL0 : 0 ≤ L)
    (hL : ∀ a b : ℚ, |f a - f b| ≤ L * |a - b|)
    (hsign : f 0 * f 1 ≤ 0) :
    |f (bisect 0 1 f)| ≤ L * bisectTol := by
  obtain ⟨lo', hi', a1, a2, a3, a4, a5, a6⟩ :=
    bisectAux_bracket f bisectTol bisectMaxIter 0 1 (by norm_num) hsign
  unfold bisect
  rw [a6]
  have hmax : max bisectTol ((1 - 0 : ℚ) / 2 ^ bisectMaxIter) = bisectTol := by
    apply max_eq_left
    rw [bisectTol, bisectMaxIter]
    norm_num
  calc |f ((lo' + hi') / 2)| ≤ L * (hi' - lo') := abs_mid_le f L lo' hi' hL0 hL a2 a4
    _ ≤ L * bisectTol := by
        apply mul_le_mul_of_nonneg_left _ hL0
        calc hi' - lo' ≤ max bisectTol ((1 - 0) / 2 ^ bisectMaxIter) := a5
          _ = bisectTol := hmax

/-- C5: for every particle matched at the embedded boundary, the position
stored in the destination buffer is the backward-stepped position at the
bisection root over the step fraction in [0, 1] (not the pre-match
sampled position), and consequently the signed-distance field evaluated
at the stored position is within the bisection tolerance of zero — scaled
by the Lipschitz modulus `L` of the field along the backward trajectory —
under the caller's assumption that the field changes sign over the step. -/
theorem C5_eb_intersection (ts : Int) (dt : ℚ) (phiAt : ℚ → ℚ → ℚ → ℚ)
    (nrr nri : Nat) (p : Particle) (L : ℚ)
    (h1 : p.runtime_rdata.length = nrr) (h2 : p.runtime_idata.length = nri)
    (hL0 : 0 ≤ L)
    (hL : ∀ a b : ℚ,
      |ebTrajectoryPhi phiAt dt p a - ebTrajectoryPhi phiAt dt p b| ≤ L * |a - b|)
    (hsign : ebTrajectoryPhi phiAt dt p 0 * ebTrajectoryPhi phiAt dt p 1 ≤ 0) :
    (FindBoundaryIntersection nri ts dt phiAt nrr (nri + 1) p).pos
        = ebIntersectionPos phiAt dt p ∧
    ebIntersectionPos phiAt dt p =
      (fun q : ℚ × ℚ × ℚ => [q.1, q.2.1, q.2.2])
        (UpdatePosition (p.pos.getD 0 0) (p.pos.getD 1 0) (p.pos.getD 2 0)
          (p.rdata.getD PIdx.ux 0) (p.rdata.getD PIdx.uy 0) (p.rdata.getD PIdx.uz 0)
          (-(bisect 0 1 (ebTrajectoryPhi phiAt dt p) * dt))) ∧
    |phiAt ((FindBoundaryIntersection nri ts dt phiAt nrr (nri + 1) p).pos.getD 0 0)
           ((FindBoundaryIntersection nri ts dt phiAt nrr (nri + 1) p).pos.getD 1 0)
           ((FindBoundaryIntersection nri ts dt phiAt nrr (nri + 1) p).pos.getD 2 0)|
      ≤ L * bisectTol := by
  refine ⟨?_, rfl, ?_⟩
  · rw [FindBoundaryIntersection_eq ts dt phiAt nrr nri p h1 h2]
  · show |ebTrajectoryPhi phiAt dt p (bisect 0 1 (ebTrajectoryPhi phiAt dt p))|
        ≤ L * bisectTol
    exact bisect_residual (ebTrajectoryPhi phiAt dt p) L hL0 hL hsign

/-- Signed-distance field for the intersection witness: the plane
`z = -1/2`, negative above it along the backward trajectory. -/
def phiC5 : ℚ → ℚ → ℚ → ℚ := fun _ _ z => -z - 1/2

/-- Particle for the intersection witness: at the origin with unit
velocity in z. -/
def pC5 : Particle :=
  { idcpu := 1, pos := [0, 0, 0], rdata := [1, 0, 0, 1],
    runtime_rdata := [], runtime_idata := [] }

/-- C5 witness: for the plane field and the unit-velocity particle the
sign-change and unit-Lipschitz hypotheses hold, so the stored position's
signed distance is within the tolerance. -/
theorem C5_eb_intersection_witness :
    ebTrajectoryPhi phiC5 1 pC5 0 * ebTrajectoryPhi phiC5 1 pC5 1 ≤ 0 ∧
    |phiC5 ((FindBoundaryIntersection 0 4 1 phiC5 0 (0 + 1) pC5).pos.getD 0 0)
           ((FindBoundaryIntersection 0 4 1 phiC5 0 (0 + 1) pC5).pos.getD 1 0)
           ((FindBoundaryIntersection 0 4 1 phiC5 0 (0 + 1) pC5).pos.getD 2 0)|
      ≤ 1 * bisectTol := by
  have hL : ∀ a b : ℚ,
      |ebTrajectoryPhi phiC5 1 pC5 a - ebTrajectoryPhi phiC5 1 pC5 b|
        ≤ 1 * |a - b| := by
    intro a b
    have he : ebTrajectoryPhi phiC5 1 pC5 a - ebTrajectoryPhi phiC5 1 pC5 b
        = a - b := by
      simp [ebTrajectoryPhi, UpdatePosition, phiC5, pC5, PIdx.ux, PIdx.uy, PIdx.uz]
    rw [he, one_mul]
  have hsign : ebTrajectoryPhi phiC5 1 pC5 0 * ebTrajectoryPhi phiC5 1 pC5 1 ≤ 0 := by
    norm_num [ebTrajectoryPhi, UpdatePosition, phiC5, pC5, PIdx.ux, PIdx.uy, PIdx.uz]
  exact ⟨hsign,
    (C5_eb_intersection 4 1 phiC5 0 0 pC5 1 rfl rfl (by norm_num) hL hsign).2.2⟩

end WarpXPBB
